import Mathlib

/-!
Verification of the project-store cache layer and the burndown-chart
derivation of the page-of-nothingness repository.

The embedding below translates the client-side data layer
(ProjectContext: fetch guards, cache-scope replacement, task updates,
cascading project deletion) and the burndown generation algorithm
(BurndownChart.generateBurndownData) into executable Lean definitions.

Modelling conventions:
- Calendar days are integers (days since an arbitrary epoch); the ISO
  date-string formatting and parsing used by the source is an injective
  encoding of such days, so day arithmetic (addDays, differenceInDays,
  isBefore, isToday, splitting a timestamp at the letter T) is integer
  arithmetic.  Wall-clock instants (Date.now()) are naturals (epoch ms).
- JavaScript Record objects that are only ever read by key are total
  functions with an explicit absent value (Option, or false for the
  boolean error-flag record, matching undefined-is-falsy).
- Story points are natural numbers (the estimate field of a task; the
  source stores them as nonnegative numbers and sums them).  Fractional
  arithmetic produced by the ideal-line division is carried out in the
  rationals, and Math.round is the Mathlib round (round-half-up, which
  agrees with JavaScript Math.round on all rationals).
- Remote calls are oracles: a fetch outcome is an Except value carrying
  the already-domain-mapped rows (the snake_case to camelCase field
  renaming at the gateway is a bijective relabelling and is not
  re-modelled), and a delete outcome is a success flag.
-/

namespace Scrum

/-- A project record as held in the client cache (part_000 lines 119-130). -/
structure Project where
  id : String
  title : String
  description : String
  endGoal : Option String
  ownerId : String
  isCollaboration : Bool
deriving DecidableEq, Repr

/-- A sprint record as held in the client cache (part_000 lines 175-183).
Start and end dates are calendar days. -/
structure Sprint where
  id : String
  title : String
  projectId : String
  startDate : Int
  endDate : Int
  status : String
deriving DecidableEq, Repr

/-- A task record as held in the client cache (part_000 lines 222-235).
The empty sprintId is the backlog sentinel; completionDate is a calendar
day when present. -/
structure Task where
  id : String
  title : String
  description : Option String
  sprintId : String
  status : String
  assignedTo : Option String
  storyPoints : Option Nat
  priority : Option String
  createdAt : String
  updatedAt : String
  projectId : String
  completionDate : Option Int
deriving DecidableEq, Repr

/-- One point of the burndown series (part_001 lines 24-29).  The
presentational formattedDate field is a pure re-rendering of date and is
not carried. -/
structure BurndownDataPoint where
  date : Int
  ideal : Int
  actual : Option Int
deriving DecidableEq, Repr

/-- The entity caches of the provider plus the burndown store
(part_000 lines 61-64). -/
structure Store where
  projects : List Project
  sprints : List Sprint
  tasks : List Task
  burndownData : String → Option (List BurndownDataPoint)

/-- The freshness bookkeeping of the provider: per-key last fetch time and
per-key error flag (part_000 lines 66-67).  An absent timestamp is none;
an absent error flag reads as false, matching undefined-is-falsy. -/
structure CacheMeta where
  lastFetchTime : String → Option Nat
  fetchErrors : String → Bool

/-- updateFetchTime (part_000 lines 75-78): record now as the fetch time
for the key and clear its error flag. -/
def updateFetchTime (m : CacheMeta) (key : String) (now : Nat) : CacheMeta :=
  { lastFetchTime := fun k => if k = key then some now else m.lastFetchTime k,
    fetchErrors := fun k => if k = key then false else m.fetchErrors k }

/-- markFetchError (part_000 lines 80-82): set the error flag for the key,
leaving the fetch time untouched. -/
def markFetchError (m : CacheMeta) (key : String) : CacheMeta :=
  { m with fetchErrors := fun k => if k = key then true else m.fetchErrors k }

/-- shouldRefetch (part_000 lines 69-73): more than maxAge milliseconds
(the call sites use the default of 60000) have elapsed since the recorded
fetch time, a missing record reading as time zero. -/
def shouldRefetch (m : CacheMeta) (key : String) (maxAge now : Nat) : Bool :=
  decide ((now : Int) - (((m.lastFetchTime key).getD 0 : Nat) : Int) > (maxAge : Int))

/-- The composite staleness test applied by every fetch guard
(part_000 lines 101, 155, 206, 253, 850): the cached scope may be reused
only when shouldRefetch is false and the error flag is clear, so a key is
stale when its timestamp is too old (or missing) or its last attempt
errored.  The third conjunct of each guard, cache non-emptiness for the
scope, concerns cache content rather than freshness and is kept at the
call sites. -/
def isStale (m : CacheMeta) (key : String) (maxAge now : Nat) : Bool :=
  shouldRefetch m key maxAge now || m.fetchErrors key

/-- The cache effect of one fetchProjects round trip (part_000 lines
108-148): on success the owned-project list is replaced by the fetched
rows and the key is marked fetched; on failure the error flag is set and
all cached data is left in place.  The success-path fan-out to per-project
sprint and backlog fetches consists of further fetch operations modelled
by their own step functions. -/
def fetchProjectsStep (st : Store) (m : CacheMeta) (now : Nat)
    (result : Except Unit (List Project)) : Store × CacheMeta :=
  match result with
  | .error _ => (st, markFetchError m "projects")
  | .ok rows => ({ st with projects := rows }, updateFetchTime m "projects" now)

/-- The cache effect of one fetchSprints round trip for a project
(part_000 lines 160-199): on success every cached sprint of that project
is dropped and the fetched rows are appended; on failure the error flag
for the scope key is set and the caches are untouched. -/
def fetchSprintsStep (st : Store) (m : CacheMeta) (projectId : String) (now : Nat)
    (result : Except Unit (List Sprint)) : Store × CacheMeta :=
  match result with
  | .error _ => (st, markFetchError m ("sprints-" ++ projectId))
  | .ok rows =>
    ({ st with sprints := st.sprints.filter (fun s => s.projectId ≠ projectId) ++ rows },
     updateFetchTime m ("sprints-" ++ projectId) now)

/-- The cache effect of one fetchTasksBySprint round trip
(part_000 lines 211-246). -/
def fetchTasksBySprintStep (st : Store) (m : CacheMeta) (sprintId : String) (now : Nat)
    (result : Except Unit (List Task)) : Store × CacheMeta :=
  match result with
  | .error _ => (st, markFetchError m ("tasks-sprint-" ++ sprintId))
  | .ok rows =>
    ({ st with tasks := st.tasks.filter (fun t => t.sprintId ≠ sprintId) ++ rows },
     updateFetchTime m ("tasks-sprint-" ++ sprintId) now)

/-- The cache effect of one fetchBacklogTasks round trip
(part_000 lines 258-297): the replaced scope is the set of cached tasks
with backlog status, the given project, and the empty sprint sentinel. -/
def fetchBacklogTasksStep (st : Store) (m : CacheMeta) (projectId : String) (now : Nat)
    (result : Except Unit (List Task)) : Store × CacheMeta :=
  match result with
  | .error _ => (st, markFetchError m ("backlog-" ++ projectId))
  | .ok rows =>
    ({ st with tasks :=
        st.tasks.filter (fun t =>
          ¬(t.status = "backlog" ∧ t.projectId = projectId ∧ t.sprintId = "")) ++ rows },
     updateFetchTime m ("backlog-" ++ projectId) now)

/-- The cache effect of one fetchCollaborativeProjects round trip
(part_000 lines 855-916): the replace and the fetch-time record happen
only under the guard data.length > 0, so a successful empty result leaves
both the cache and the bookkeeping untouched. -/
def fetchCollaborativeProjectsStep (st : Store) (m : CacheMeta) (now : Nat)
    (result : Except Unit (List Project)) : Store × CacheMeta :=
  match result with
  | .error _ => (st, markFetchError m "collaborations")
  | .ok rows =>
    if rows.isEmpty then (st, m)
    else
      ({ st with projects := st.projects.filter (fun p => ¬ p.isCollaboration) ++ rows },
       updateFetchTime m "collaborations" now)

/-- A partial task update as passed to updateTask.  An outer none means
the field is absent from the update object (the source distinguishes
absence via the in operator); a present optional field may itself carry
the absent value, matching an explicit undefined.  The updatedAt field of
the update is always overridden by the merge and is carried only for
shape fidelity. -/
structure TaskUpdate where
  title : Option String
  description : Option (Option String)
  sprintId : Option String
  status : Option String
  assignedTo : Option (Option String)
  storyPoints : Option (Option Nat)
  priority : Option (Option String)
  createdAt : Option String
  updatedAt : Option String
  projectId : Option String
  completionDate : Option (Option Int)
deriving DecidableEq, Repr

/-- The local merge performed by updateTask on the cached task
(part_000 lines 743-761): spread the existing task, spread the update,
stamp updatedAt; re-assert the existing completion date when the update
does not mention the field; then, on a transition into done from a
non-done status with no completion date present after the merge, stamp
the current day as the completion date. -/
def applyTaskUpdate (ex : Task) (u : TaskUpdate) (today : Int) (nowStr : String) : Task :=
  let merged : Task :=
    { id := ex.id,
      title := u.title.getD ex.title,
      description := u.description.getD ex.description,
      sprintId := u.sprintId.getD ex.sprintId,
      status := u.status.getD ex.status,
      assignedTo := u.assignedTo.getD ex.assignedTo,
      storyPoints := u.storyPoints.getD ex.storyPoints,
      priority := u.priority.getD ex.priority,
      createdAt := u.createdAt.getD ex.createdAt,
      updatedAt := nowStr,
      projectId := u.projectId.getD ex.projectId,
      completionDate := u.completionDate.getD ex.completionDate }
  let merged2 :=
    if u.completionDate = none ∧ ex.completionDate ≠ none then
      { merged with completionDate := ex.completionDate }
    else merged
  if u.status = some "done" ∧ ex.status ≠ "done" ∧ merged2.completionDate = none then
    { merged2 with completionDate := some today }
  else merged2

/-- updateTask on the task cache (part_000 lines 710-763): the task must
exist in the cache (otherwise the operation raises, modelled as none);
the merged task replaces the cached record. -/
def updateTaskLocal (tasks : List Task) (id : String) (u : TaskUpdate)
    (today : Int) (nowStr : String) : Option (List Task) :=
  match tasks.find? (fun t => t.id = id) with
  | none => none
  | some ex =>
    some (tasks.map (fun t => if t.id = id then applyTaskUpdate ex u today nowStr else t))

/-- The local cache effect of a successful deleteSprint
(part_000 lines 625-626): the sprint row and the tasks bound to it are
dropped.  The remote board-column, task and sprint deletions precede this
and are summarised by the success flag of the caller. -/
def deleteSprintLocal (st : Store) (sid : String) : Store :=
  { st with
    sprints := st.sprints.filter (fun s => s.id ≠ sid),
    tasks := st.tasks.filter (fun t => t.sprintId ≠ sid) }

/-- The sprint loop of deleteProject (part_000 lines 430-437): each sprint
is deleted in turn via deleteSprint; a remote failure inside deleteSprint
raises before any local update for that sprint, aborting the loop with the
partially updated store.  After its local update deleteSprint triggers
refreshProjectData, an abstract re-synchronisation of the project scope
passed in as refresh. -/
def cascadeDeleteSprints (ok : String → Bool) (refresh : Store → Store) :
    List String → Store → Bool × Store
  | [], st => (true, st)
  | sid :: rest, st =>
    if ok sid then cascadeDeleteSprints ok refresh rest (refresh (deleteSprintLocal st sid))
    else (false, st)

/-- The project-level cache removals of deleteProject, executed only after
every remote step succeeded (part_000 lines 458-466): drop the project
row, every sprint of the project, every task bound to one of the captured
sprint ids or to the project, and the burndown series of the project. -/
def deleteProjectFinalize (st : Store) (pid : String) (sprintIds : List String) : Store :=
  { projects := st.projects.filter (fun p => p.id ≠ pid),
    sprints := st.sprints.filter (fun s => s.projectId ≠ pid),
    tasks := st.tasks.filter (fun t => ¬ sprintIds.contains t.sprintId ∧ t.projectId ≠ pid),
    burndownData := fun k => if k = pid then none else st.burndownData k }

/-- deleteProject (part_000 lines 421-474): capture the ids of the cached
sprints of the project, cascade-delete them, remote-delete the backlog
tasks and the project row, and only then perform the project-level local
removals.  Any failure aborts with the store as mutated so far and the
raised flag false in the first component. -/
def deleteProjectModel (st : Store) (pid : String) (ok : String → Bool)
    (backlogOk projectOk : Bool) (refresh : Store → Store) : Bool × Store :=
  let sprintIds := (st.sprints.filter (fun s => s.projectId = pid)).map (fun s => s.id)
  match cascadeDeleteSprints ok refresh sprintIds st with
  | (false, st2) => (false, st2)
  | (true, st2) =>
    if backlogOk then
      if projectOk then (true, deleteProjectFinalize st2 pid sprintIds)
      else (false, st2)
    else (false, st2)

/-- getSprintsByProject (part_000 lines 640-641). -/
def getSprintsByProject (projectId : String) (sprints : List Sprint) : List Sprint :=
  sprints.filter (fun s => s.projectId = projectId)

/-- getTasksBySprint (part_000 lines 820-821). -/
def getTasksBySprint (tasks : List Task) (sprintId : String) : List Task :=
  tasks.filter (fun t => t.sprintId = sprintId)

/-- The per-sprint gathering of a project's tasks in generateBurndownData
(part_001 lines 163-167): tasks are collected through the project's
sprints only. -/
def projectTasksOf (projectId : String) (sprints : List Sprint) (tasks : List Task) :
    List Task :=
  (getSprintsByProject projectId sprints).flatMap (fun sp => getTasksBySprint tasks sp.id)

/-- The story-point filter of generateBurndownData (part_001 lines
170-172): the estimate is present and positive. -/
def hasPoints (t : Task) : Bool :=
  match t.storyPoints with
  | some p => decide (0 < p)
  | none => false

/-- The story-point reading used by every summation in the chart
(storyPoints or zero). -/
def taskPts (t : Task) : Nat :=
  t.storyPoints.getD 0

/-- The accumulating fold computing the earliest sprint start date
(part_001 lines 181-192). -/
def earliestStartDate (l : List Sprint) : Option Int :=
  l.foldl (fun acc sp =>
    match acc with
    | none => some sp.startDate
    | some d => if sp.startDate < d then some sp.startDate else some d) none

/-- The accumulating fold computing the latest sprint end date
(part_001 lines 181-192). -/
def latestEndDate (l : List Sprint) : Option Int :=
  l.foldl (fun acc sp =>
    match acc with
    | none => some sp.endDate
    | some d => if d < sp.endDate then some sp.endDate else some d) none

/-- One insertion into the completion-date grouping map (part_001 lines
212-223): push onto the list of an existing key, otherwise append a new
singleton entry; JavaScript Map keeps insertion order and updates in
place. -/
def insertCompleted (m : List (Int × List Task)) (d : Int) (t : Task) :
    List (Int × List Task) :=
  if m.any (fun p => p.1 = d) then
    m.map (fun p => if p.1 = d then (p.1, p.2 ++ [t]) else p)
  else m ++ [(d, [t])]

/-- completedTasksByDate (part_001 lines 211-223): group the tasks that
are done and carry a completion date by that calendar day. -/
def completedTasksByDate (ts : List Task) : List (Int × List Task) :=
  ts.foldl (fun m t =>
    match t.completionDate with
    | some d => if t.status = "done" then insertCompleted m d t else m
    | none => m) []

/-- The read side of the grouping map (part_001 lines 252-258): the list
at a key, or the empty list when the key is absent. -/
def lookupCompleted (m : List (Int × List Task)) (d : Int) : List Task :=
  ((m.find? (fun p => p.1 = d)).map Prod.snd).getD []

/-- The inner loop of the actual-burndown computation (part_001 lines
245-259): sum the story points of the tasks grouped under each day from
the span start through day i. -/
def completedPointsUpTo (m : List (Int × List Task)) (es : Int) (i : Nat) : Nat :=
  ((List.range (i + 1)).map
    (fun (j : Nat) => ((lookupCompleted m (es + (j : Int))).map taskPts).sum)).sum

/-- The data point written for day i of the span (part_001 lines 232-269):
the date is the span start plus i; the ideal line is the rounded linear
decay; the actual value is present only for days on or before today and
is the rounded, zero-floored difference between the total and the points
completed up to day i. -/
def mkPoint (es today : Int) (T : Nat) (D : Int) (m : List (Int × List Task))
    (i : Nat) : BurndownDataPoint :=
  { date := es + (i : Int),
    ideal := round (max 0 ((T : ℚ) - (i : ℚ) * ((T : ℚ) / (D : ℚ)))),
    actual :=
      if es + (i : Int) ≤ today then
        some (round (max 0 ((T : ℚ) - (completedPointsUpTo m es i : ℚ))))
      else none }

/-- One uniqueData.set call (part_001 lines 226, 264-269), with JavaScript
Map semantics: replace in place on an existing key, append otherwise. -/
def mapSetPoint (u : List (Int × BurndownDataPoint)) (k : Int) (v : BurndownDataPoint) :
    List (Int × BurndownDataPoint) :=
  if u.any (fun p => p.1 = k) then
    u.map (fun p => if p.1 = k then (k, v) else p)
  else u ++ [(k, v)]

/-- generateBurndownData (part_001 lines 152-273): empty without sprints,
without positive-point tasks, or with a zero point total; otherwise one
data point per day of the span (clamped to at least seven days), keyed
and deduplicated by date, returned in insertion order. -/
def generateBurndownData (projectId : String) (sprints : List Sprint)
    (tasks : List Task) (today : Int) : List BurndownDataPoint :=
  let projectSprints := getSprintsByProject projectId sprints
  if projectSprints.isEmpty then []
  else
    let tasksWithPoints := (projectTasksOf projectId sprints tasks).filter hasPoints
    if tasksWithPoints.isEmpty then []
    else
      match earliestStartDate projectSprints, latestEndDate projectSprints with
      | some es, some le =>
        let daysInProject := le - es + 1
        let timeframeDays := max daysInProject 7
        let T := (tasksWithPoints.map taskPts).sum
        if T = 0 then []
        else
          let m := completedTasksByDate tasksWithPoints
          (((List.range timeframeDays.toNat).foldl
              (fun u (i : Nat) => mapSetPoint u (es + (i : Int)) (mkPoint es today T timeframeDays m i))
              []).map Prod.snd)
      | _, _ => []

/-- The tasks that are done with a completion date between two days
inclusive; used to state what the actual line subtracts. -/
def isDoneBetween (lo hi : Int) (t : Task) : Bool :=
  match t.completionDate with
  | some d => decide (t.status = "done") && decide (lo ≤ d) && decide (d ≤ hi)
  | none => false

/-- The summed story points of the tasks done within a day interval. -/
def doneBetween (ts : List Task) (lo hi : Int) : Nat :=
  ((ts.filter (isDoneBetween lo hi)).map taskPts).sum

/-- A task that is done with its completion date on a given day; the
membership test of the grouping map. -/
def completedOn (d : Int) (t : Task) : Bool :=
  match t.completionDate with
  | some d2 => decide (t.status = "done") && decide (d2 = d)
  | none => false

/-- A task that is done with its completion date on or before a given day,
with no lower bound: the subtraction described by the specification
sentence for the actual line, stated for comparison with the code. -/
def isDoneOnOrBefore (hi : Int) (t : Task) : Bool :=
  match t.completionDate with
  | some d => decide (t.status = "done") && decide (d ≤ hi)
  | none => false

/-- The summed story points of the tasks done on or before a day
(the specification's reading of the actual-line subtraction). -/
def doneOnOrBefore (ts : List Task) (hi : Int) : Nat :=
  ((ts.filter (isDoneOnOrBefore hi)).map taskPts).sum

/-- Concrete fixtures used to exercise the theorems on explicit inputs. -/
def emptyMeta : CacheMeta := ⟨fun _ => none, fun _ => false⟩

def exProject : Project := ⟨"p1", "Alpha", "", none, "u1", false⟩

def exSprintA : Sprint := ⟨"s1", "Sprint 1", "p1", 0, 6, "planned"⟩

def exSprintB : Sprint := ⟨"s2", "Sprint 2", "p1", 0, 6, "planned"⟩

def exSprintOther : Sprint := ⟨"s9", "Sprint 9", "p2", 0, 6, "planned"⟩

def exTaskDone : Task :=
  ⟨"a", "A", none, "s1", "done", none, some 5, none, "", "", "p1", some 2⟩

def exTaskOpen : Task :=
  ⟨"b", "B", none, "s1", "todo", none, some 3, none, "", "", "p1", none⟩

def exTaskBacklog : Task :=
  ⟨"c", "C", none, "", "backlog", none, some 8, none, "", "", "p1", some 1⟩

def exTaskEarlyDone : Task :=
  ⟨"a", "A", none, "s1", "done", none, some 5, none, "", "", "p1", some 5⟩

def exSprintLate : Sprint := ⟨"s1", "Sprint 1", "p1", 10, 16, "planned"⟩

def exUpdateDone : TaskUpdate :=
  ⟨none, none, none, some "done", none, none, none, none, none, none, none⟩

def exStore : Store := ⟨[exProject], [exSprintA, exSprintB], [], fun _ => none⟩

/-- Rounding is monotone on the rationals. -/
theorem roundRatMono {x y : ℚ} (h : x ≤ y) : round x ≤ round y := by
  rw [round_eq, round_eq]
  exact Int.floor_le_floor (by linarith)

/-- Rounding a nonnegative rational is nonnegative. -/
theorem roundRatNonneg {x : ℚ} (h : 0 ≤ x) : 0 ≤ round x := by
  have h2 := roundRatMono h
  rwa [round_zero] at h2

/-- Setting a key absent from the deduplication map appends the entry. -/
theorem mapSetPoint_fresh (u : List (Int × BurndownDataPoint)) (k : Int)
    (v : BurndownDataPoint) (h : ∀ q ∈ u, q.1 ≠ k) :
    mapSetPoint u k v = u ++ [(k, v)] := by
  unfold mapSetPoint
  have hany : u.any (fun p => decide (p.1 = k)) = false := by
    rw [List.any_eq_false]
    intro q hq
    simpa using h q hq
  simp [hany]

/-- Folding set calls over pairwise-distinct day keys builds the map as a
plain list of entries in visit order. -/
theorem foldl_mapSetPoint (f : Nat → BurndownDataPoint) (es : Int) :
    ∀ (l : List Nat) (acc : List (Int × BurndownDataPoint)),
      l.Pairwise (fun a b => a ≠ b) →
      (∀ i ∈ l, ∀ q ∈ acc, q.1 ≠ es + (i : Int)) →
      l.foldl (fun u (i : Nat) => mapSetPoint u (es + (i : Int)) (f i)) acc
        = acc ++ l.map (fun (i : Nat) => (es + (i : Int), f i)) := by
  intro l
  induction l with
  | nil => intro acc _ _; simp
  | cons i l ih =>
    intro acc hpw hacc
    rw [List.pairwise_cons] at hpw
    have hfresh : ∀ j ∈ l, ∀ q ∈ acc ++ [(es + (i : Int), f i)], q.1 ≠ es + (j : Int) := by
      intro j hj q hq
      rcases List.mem_append.mp hq with h1 | h1
      · exact hacc j (List.mem_cons_of_mem i hj) q h1
      · have hq2 : q = (es + (i : Int), f i) := by simpa using h1
        subst hq2
        have hne : i ≠ j := hpw.1 j hj
        simp only [ne_eq]
        omega
    rw [List.foldl_cons,
      mapSetPoint_fresh _ _ _ (fun q hq => hacc i (List.mem_cons_self i l) q hq),
      ih (acc ++ [(es + (i : Int), f i)]) hpw.2 hfresh]
    simp

/-- The burndown series, under the conditions in which the source emits a
nonempty one, is the pointwise image of the day range: one mkPoint per day
index.  The deduplicating map degenerates to this because consecutive day
keys are pairwise distinct. -/
theorem generateBurndownData_eq (pid : String) (sprints : List Sprint)
    (tasks : List Task) (today es le : Int)
    (hsp : getSprintsByProject pid sprints ≠ [])
    (hes : earliestStartDate (getSprintsByProject pid sprints) = some es)
    (hle : latestEndDate (getSprintsByProject pid sprints) = some le)
    (htw : ∃ t ∈ projectTasksOf pid sprints tasks, hasPoints t = true) :
    generateBurndownData pid sprints tasks today
      = (List.range (max (le - es + 1) 7).toNat).map
          (mkPoint es today
            ((((projectTasksOf pid sprints tasks).filter hasPoints).map taskPts).sum)
            (max (le - es + 1) 7)
            (completedTasksByDate ((projectTasksOf pid sprints tasks).filter hasPoints))) := by
  obtain ⟨t, htmem, htp⟩ := htw
  have htw2 : t ∈ (projectTasksOf pid sprints tasks).filter hasPoints :=
    List.mem_filter.mpr ⟨htmem, htp⟩
  have h1 : (getSprintsByProject pid sprints).isEmpty = false :=
    List.isEmpty_eq_false.mpr hsp
  have h2 : ((projectTasksOf pid sprints tasks).filter hasPoints).isEmpty = false :=
    List.isEmpty_eq_false.mpr (List.ne_nil_of_mem htw2)
  have hTpos : ¬ ((((projectTasksOf pid sprints tasks).filter hasPoints).map taskPts).sum = 0) := by
    intro h0
    have hz := List.sum_eq_zero_iff.mp h0 (taskPts t) (List.mem_map_of_mem _ htw2)
    unfold hasPoints at htp
    unfold taskPts at hz
    rcases hspt : t.storyPoints with _ | p
    · rw [hspt] at htp
      exact Bool.false_ne_true htp
    · rw [hspt] at htp hz
      simp only [Option.getD_some] at hz
      simp only [decide_eq_true_eq] at htp
      omega
  have hfold := foldl_mapSetPoint
    (mkPoint es today
      ((((projectTasksOf pid sprints tasks).filter hasPoints).map taskPts).sum)
      (max (le - es + 1) 7)
      (completedTasksByDate ((projectTasksOf pid sprints tasks).filter hasPoints)))
    es (List.range (max (le - es + 1) 7).toNat) []
    ((List.nodup_range _).imp (fun hab => hab))
    (by intro i _ q hq; simp at hq)
  simp only [generateBurndownData, h1, h2, hes, hle, hTpos, Bool.false_eq_true,
    if_false, ite_false]
  rw [hfold]
  rw [List.nil_append, List.map_map]
  rfl

/-- A find? over entries transformed by a key-preserving map commutes with
the map. -/
theorem fstPreserving_find? (g : Int × List Task → Int × List Task)
    (hg : ∀ p, (g p).1 = p.1) (d : Int) :
    ∀ m : List (Int × List Task),
      (m.map g).find? (fun p => p.1 = d) = (m.find? (fun p => p.1 = d)).map g := by
  intro m
  induction m with
  | nil => rfl
  | cons p m ih =>
    simp only [List.map_cons, List.find?_cons, hg p]
    by_cases hp : p.1 = d
    · simp [hp]
    · simp [hp, ih]

/-- Reading an inserted key returns the previous group with the task
appended. -/
theorem lookupCompleted_insert_same (m : List (Int × List Task)) (d : Int) (t : Task) :
    lookupCompleted (insertCompleted m d t) d = lookupCompleted m d ++ [t] := by
  unfold insertCompleted
  by_cases hany : m.any (fun p => decide (p.1 = d)) = true
  · rw [if_pos hany]
    unfold lookupCompleted
    rw [fstPreserving_find? _ (fun p => by split <;> rfl) d m]
    rcases hfind : m.find? (fun p => decide (p.1 = d)) with _ | r
    · exfalso
      obtain ⟨q, hqmem, hq⟩ := List.any_eq_true.mp hany
      exact (List.find?_eq_none.mp hfind q hqmem) hq
    · have hr1 : r.1 = d := by
        have := List.find?_some hfind
        simpa using this
      simp [hfind, hr1]
  · rw [if_neg hany]
    unfold lookupCompleted
    have hanyf : m.any (fun p => decide (p.1 = d)) = false := by
      cases h2 : m.any (fun p => decide (p.1 = d))
      · rfl
      · exact absurd h2 hany
    have hnone : m.find? (fun p => decide (p.1 = d)) = none := by
      rw [List.find?_eq_none]
      intro x hx
      exact List.any_eq_false.mp hanyf x hx
    rw [List.find?_append, hnone]
    simp

/-- Reading any other key is unaffected by an insertion. -/
theorem lookupCompleted_insert_other (m : List (Int × List Task)) (d d2 : Int)
    (t : Task) (hne : d2 ≠ d) :
    lookupCompleted (insertCompleted m d2 t) d = lookupCompleted m d := by
  unfold insertCompleted
  by_cases hany : m.any (fun p => decide (p.1 = d2)) = true
  · rw [if_pos hany]
    unfold lookupCompleted
    rw [fstPreserving_find? _ (fun p => by split <;> rfl) d m]
    rcases hfind : m.find? (fun p => decide (p.1 = d)) with _ | r
    · simp [hfind]
    · have hr1 : r.1 = d := by
        have := List.find?_some hfind
        simpa using this
      have hrne : ¬ (r.1 = d2) := by rw [hr1]; exact fun h => hne h.symm
      simp [hfind, hrne]
  · rw [if_neg hany]
    unfold lookupCompleted
    rw [List.find?_append]
    rcases hfind : m.find? (fun p => decide (p.1 = d)) with _ | r <;>
      simp [hfind, hne]

/-- Reading the grouping map built by the completion-date fold gives the
tasks completed on that day, in scan order, atop whatever the accumulator
already held. -/
theorem lookupCompleted_fold (d : Int) :
    ∀ (ts : List Task) (acc : List (Int × List Task)),
      lookupCompleted (ts.foldl (fun m t =>
        match t.completionDate with
        | some d2 => if t.status = "done" then insertCompleted m d2 t else m
        | none => m) acc) d
      = lookupCompleted acc d ++ ts.filter (completedOn d) := by
  intro ts
  induction ts with
  | nil => intro acc; simp
  | cons t ts ih =>
    intro acc
    rw [List.foldl_cons]
    rcases hcd : t.completionDate with _ | d2
    · simp only [hcd]
      rw [ih acc]
      have hco : completedOn d t = false := by simp [completedOn, hcd]
      simp [List.filter_cons, hco]
    · simp only [hcd]
      by_cases hst : t.status = "done"
      · rw [if_pos hst]
        by_cases hdd : d2 = d
        · subst hdd
          rw [ih (insertCompleted acc d2 t), lookupCompleted_insert_same]
          have hco : completedOn d2 t = true := by simp [completedOn, hcd, hst]
          simp [List.filter_cons, hco, List.append_assoc]
        · rw [ih (insertCompleted acc d2 t), lookupCompleted_insert_other _ _ _ _ hdd]
          have hco : completedOn d t = false := by simp [completedOn, hcd, hdd]
          simp [List.filter_cons, hco]
      · rw [if_neg hst]
        rw [ih acc]
        have hco : completedOn d t = false := by simp [completedOn, hcd, hst]
        simp [List.filter_cons, hco]

/-- Reading the grouping map gives exactly the done tasks completed on the
queried day. -/
theorem lookupCompleted_group (ts : List Task) (d : Int) :
    lookupCompleted (completedTasksByDate ts) d = ts.filter (completedOn d) := by
  unfold completedTasksByDate
  rw [lookupCompleted_fold]
  simp [lookupCompleted]

/-- A task without positive story points contributes zero points. -/
theorem taskPts_of_not_hasPoints {t : Task} (h : hasPoints t = false) : taskPts t = 0 := by
  unfold hasPoints at h
  unfold taskPts
  rcases hsp : t.storyPoints with _ | p
  · simp
  · rw [hsp] at h
    simp only [decide_eq_false_iff_not, Nat.not_lt, Nat.le_zero] at h
    simp [h]

/-- Extending the completion interval by one day adds exactly the points
completed on the new day. -/
theorem doneBetween_succ (es : Int) (i : Nat) (ts : List Task) :
    doneBetween ts es (es + (i : Int) + 1)
      = doneBetween ts es (es + (i : Int))
        + ((ts.filter (completedOn (es + (i : Int) + 1))).map taskPts).sum := by
  induction ts with
  | nil => simp [doneBetween]
  | cons t ts ih =>
    unfold doneBetween at *
    rcases hcd : t.completionDate with _ | d
    · have h1 : isDoneBetween es (es + (i : Int) + 1) t = false := by
        simp [isDoneBetween, hcd]
      have h2 : isDoneBetween es (es + (i : Int)) t = false := by
        simp [isDoneBetween, hcd]
      have h3 : completedOn (es + (i : Int) + 1) t = false := by
        simp [completedOn, hcd]
      simp only [List.filter_cons, h1, h2, h3, if_false, ite_false,
        Bool.false_eq_true]
      exact ih
    · by_cases hst : t.status = "done"
      · by_cases hA : es ≤ d ∧ d ≤ es + (i : Int)
        · have h1 : isDoneBetween es (es + (i : Int) + 1) t = true := by
            simp [isDoneBetween, hcd, hst]
            omega
          have h2 : isDoneBetween es (es + (i : Int)) t = true := by
            simp [isDoneBetween, hcd, hst]
            omega
          have h3 : completedOn (es + (i : Int) + 1) t = false := by
            simp [completedOn, hcd, hst]
            omega
          simp only [List.filter_cons, h1, h2, h3, if_true, ite_true,
            Bool.false_eq_true, if_false, ite_false, List.map_cons, List.sum_cons]
          omega
        · by_cases hB : d = es + (i : Int) + 1
          · have h1 : isDoneBetween es (es + (i : Int) + 1) t = true := by
              simp [isDoneBetween, hcd, hst]
              omega
            have h2 : isDoneBetween es (es + (i : Int)) t = false := by
              simp [isDoneBetween, hcd, hst]
              omega
            have h3 : completedOn (es + (i : Int) + 1) t = true := by
              simp [completedOn, hcd, hst]
              omega
            simp only [List.filter_cons, h1, h2, h3, if_true, ite_true,
              Bool.false_eq_true, if_false, ite_false, List.map_cons, List.sum_cons]
            omega
          · have h1 : isDoneBetween es (es + (i : Int) + 1) t = false := by
              simp [isDoneBetween, hcd, hst]
              omega
            have h2 : isDoneBetween es (es + (i : Int)) t = false := by
              simp [isDoneBetween, hcd, hst]
              omega
            have h3 : completedOn (es + (i : Int) + 1) t = false := by
              simp [completedOn, hcd, hst]
              omega
            simp only [List.filter_cons, h1, h2, h3, Bool.false_eq_true,
              if_false, ite_false]
            exact ih
      · have h1 : isDoneBetween es (es + (i : Int) + 1) t = false := by
          simp [isDoneBetween, hcd, hst]
        have h2 : isDoneBetween es (es + (i : Int)) t = false := by
          simp [isDoneBetween, hcd, hst]
        have h3 : completedOn (es + (i : Int) + 1) t = false := by
          simp [completedOn, hcd, hst]
        simp only [List.filter_cons, h1, h2, h3, Bool.false_eq_true,
          if_false, ite_false]
        exact ih

/-- The one-day interval at the span start collects exactly the points
completed on that day. -/
theorem doneBetween_base (es : Int) (ts : List Task) :
    doneBetween ts es es = ((ts.filter (completedOn es)).map taskPts).sum := by
  unfold doneBetween
  have hfe : ts.filter (isDoneBetween es es) = ts.filter (completedOn es) := by
    apply List.filter_congr
    intro t _
    unfold isDoneBetween completedOn
    rcases hcd : t.completionDate with _ | d
    · rfl
    · by_cases hst : t.status = "done"
      · by_cases hde : d = es
        · subst hde
          simp [hst]
        · have h1 : ¬ (es ≤ d) ∨ ¬ (d ≤ es) := by omega
          rcases h1 with h2 | h2 <;> simp [hst, h2, hde]
      · simp [hst]
  rw [hfe]

/-- The day-by-day cumulative scan of the grouping map equals the interval
sum from the span start. -/
theorem completedPointsUpTo_group (ts : List Task) (es : Int) (i : Nat) :
    completedPointsUpTo (completedTasksByDate ts) es i
      = doneBetween ts es (es + (i : Int)) := by
  induction i with
  | zero =>
    unfold completedPointsUpTo
    simp only [Nat.zero_add, List.range_succ, List.range_zero, List.nil_append,
      List.map_cons, List.map_nil, List.sum_cons, List.sum_nil, Nat.cast_zero,
      Int.add_zero, Nat.add_zero, lookupCompleted_group]
    rw [doneBetween_base]
  | succ i ih =>
    unfold completedPointsUpTo at *
    rw [List.range_succ, List.map_append, List.sum_append]
    simp only [List.map_cons, List.map_nil, List.sum_cons, List.sum_nil,
      lookupCompleted_group] at *
    have hstep := doneBetween_succ es i ts
    have hcast : es + (((i : Nat) + 1 : Nat) : Int) = es + (i : Int) + 1 := by
      push_cast
      ring
    rw [hcast, hstep, ← ih]
    omega

/-- Filtering out the zero-point tasks does not change a points sum. -/
theorem sum_taskPts_filter_hasPoints (ts : List Task) :
    ((ts.filter hasPoints).map taskPts).sum = (ts.map taskPts).sum := by
  induction ts with
  | nil => rfl
  | cons t ts ih =>
    cases hhp : hasPoints t
    · have h0 := taskPts_of_not_hasPoints hhp
      simp [List.filter_cons, hhp, ih, h0]
    · simp [List.filter_cons, hhp, ih]

/-- A points sum over a doubly filtered list drops the zero-point filter. -/
theorem sum_taskPts_subfilter (p : Task → Bool) (ts : List Task) :
    (((ts.filter hasPoints).filter p).map taskPts).sum
      = ((ts.filter p).map taskPts).sum := by
  induction ts with
  | nil => rfl
  | cons t ts ih =>
    cases hhp : hasPoints t
    · have h0 := taskPts_of_not_hasPoints hhp
      cases hp : p t
      · simp only [List.filter_cons, hhp, hp, Bool.false_eq_true, if_false, ite_false]
        exact ih
      · simp only [List.filter_cons, hhp, hp, Bool.false_eq_true, if_false, ite_false,
          if_true, ite_true, List.map_cons, List.sum_cons, h0]
        rw [ih]
        omega
    · cases hp : p t
      · simp only [List.filter_cons, hhp, hp, Bool.false_eq_true, if_false, ite_false,
          if_true, ite_true]
        exact ih
      · simp only [List.filter_cons, hhp, hp, if_true, ite_true, List.map_cons,
          List.sum_cons]
        rw [ih]

/-- Filtering out the zero-point tasks does not change an interval sum. -/
theorem doneBetween_filter_hasPoints (ts : List Task) (lo hi : Int) :
    doneBetween (ts.filter hasPoints) lo hi = doneBetween ts lo hi := by
  unfold doneBetween
  exact sum_taskPts_subfilter (isDoneBetween lo hi) ts

/-- An element of the image of the day range comes from an in-range day
index. -/
theorem getElem?_map_range {α : Type} {f : Nat → α} {n i : Nat} {p : α}
    (h : ((List.range n).map f)[i]? = some p) : i < n ∧ p = f i := by
  rcases Nat.lt_or_ge i n with hlt | hge
  · rw [List.getElem?_map, List.getElem?_range hlt] at h
    simp only [Option.map_some'] at h
    exact ⟨hlt, (Option.some_inj.mp h).symm⟩
  · rw [List.getElem?_map] at h
    have hnone : (List.range n)[i]? = none := by
      apply List.getElem?_eq_none
      simpa using hge
    rw [hnone] at h
    simp at h

/-- Rounding the zero-floored difference of two casted naturals needs no
rounding at all. -/
theorem round_max_sub_natCast (a b : Nat) :
    round (max 0 ((a : ℚ) - (b : ℚ))) = max 0 ((a : Int) - (b : Int)) := by
  have h1 : ((a : ℚ) - (b : ℚ)) = (((a : Int) - (b : Int) : Int) : ℚ) := by
    push_cast
    ring
  have h2 : (0 : ℚ) = (((0 : Int) : Int) : ℚ) := by norm_num
  rw [h1, h2, ← Int.cast_max, round_intCast]

/-- C1 (amended): in a nonempty generated burndown series the actual value
is null exactly for the days strictly after today; for a day on or before
today it equals the total story points minus the points of the tasks done
with a completion date between the span start and that day inclusive,
floored at zero — hence a non-negative integer not exceeding the total.
The source credits only completions falling inside the scanned span, so a
done task completed strictly before the span start is never subtracted;
this span-start lower bound is the sole divergence from the claim. -/
theorem burndown_actual_value_and_nullability (pid : String) (sprints : List Sprint)
    (tasks : List Task) (today es le : Int)
    (hsp : getSprintsByProject pid sprints ≠ [])
    (hes : earliestStartDate (getSprintsByProject pid sprints) = some es)
    (hle : latestEndDate (getSprintsByProject pid sprints) = some le)
    (htw : ∃ t ∈ projectTasksOf pid sprints tasks, hasPoints t = true)
    (i : Nat) (p : BurndownDataPoint)
    (hip : (generateBurndownData pid sprints tasks today)[i]? = some p) :
    (p.actual = none ↔ today < es + (i : Int))
    ∧ (es + (i : Int) ≤ today →
        p.actual = some (max 0
          (((((projectTasksOf pid sprints tasks).filter hasPoints).map taskPts).sum : Int)
            - (doneBetween (projectTasksOf pid sprints tasks) es (es + (i : Int)) : Int))))
    ∧ (∀ v, p.actual = some v → 0 ≤ v
        ∧ v ≤ ((((projectTasksOf pid sprints tasks).filter hasPoints).map taskPts).sum : Int)) := by
  rw [generateBurndownData_eq pid sprints tasks today es le hsp hes hle htw] at hip
  obtain ⟨hlt, hp⟩ := getElem?_map_range hip
  subst hp
  have hC : completedPointsUpTo
      (completedTasksByDate ((projectTasksOf pid sprints tasks).filter hasPoints)) es i
      = doneBetween (projectTasksOf pid sprints tasks) es (es + (i : Int)) := by
    rw [completedPointsUpTo_group]
    exact doneBetween_filter_hasPoints _ _ _
  refine ⟨?_, ?_, ?_⟩
  · by_cases hday : es + (i : Int) ≤ today
    · simp only [mkPoint, if_pos hday]
      constructor
      · intro h
        exact absurd h (by simp)
      · intro h
        omega
    · simp only [mkPoint, if_neg hday]
      constructor
      · intro _
        omega
      · intro _
        trivial
  · intro hday
    simp only [mkPoint, if_pos hday]
    rw [hC, round_max_sub_natCast]
  · intro v hv
    by_cases hday : es + (i : Int) ≤ today
    · simp only [mkPoint, if_pos hday] at hv
      rw [hC, round_max_sub_natCast] at hv
      have hveq := Option.some_inj.mp hv
      subst hveq
      constructor
      · exact le_max_left 0 _
      · apply max_le
        · exact Int.ofNat_nonneg _
        · omega
    · simp only [mkPoint, if_neg hday] at hv
      exact absurd hv (by simp)

theorem burndown_actual_value_and_nullability_witness :
    (generateBurndownData "p1" [exSprintA] [exTaskDone, exTaskOpen] 4)[2]?
      = some ⟨2, 6, some 3⟩
    ∧ ((⟨2, 6, some 3⟩ : BurndownDataPoint).actual = none
        ↔ (4 : Int) < 0 + ((2 : Nat) : Int)) := by
  have h := burndown_actual_value_and_nullability "p1" [exSprintA]
    [exTaskDone, exTaskOpen] 4 0 6 (by decide) (by decide) (by decide) (by decide)
    2 ⟨2, 6, some 3⟩ (by with_unfolding_all rfl)
  exact ⟨by with_unfolding_all rfl, h.1⟩

/-- C1 counterexample: one sprint spans days 10 through 16 and its only
task, worth five points, is done with completion date 5 — before the span
start.  With today = 12, day index 0 is on or before today and the claimed
value, total minus all points completed on or before day 10, is 0, yet the
generated series reports an actual of 5: completions dated before the span
start are never subtracted. -/
theorem burndown_actual_ignores_prespan_completion :
    ((generateBurndownData "p1" [exSprintLate] [exTaskEarlyDone] 12).map
        (fun p => p.actual))[0]? = some (some 5)
    ∧ (((([exTaskEarlyDone] : List Task).filter hasPoints).map taskPts).sum : Int) = 5
    ∧ max 0 ((5 : Int) - (doneOnOrBefore [exTaskEarlyDone] 10 : Int)) = 0
    ∧ (some (5 : Int) ≠ some (0 : Int)) := by
  refine ⟨by with_unfolding_all rfl, by decide, by decide, by decide⟩

/-- C5: in a nonempty generated burndown series the ideal value at day i
is the rounded linear decay round(max(0, T − i·T/D)); it is non-increasing
in i, never negative, starts at round(T) = T, and its value at the last
day of the span does not exceed its value at day 0. -/
theorem burndown_ideal_line_properties (pid : String) (sprints : List Sprint)
    (tasks : List Task) (today es le : Int)
    (hsp : getSprintsByProject pid sprints ≠ [])
    (hes : earliestStartDate (getSprintsByProject pid sprints) = some es)
    (hle : latestEndDate (getSprintsByProject pid sprints) = some le)
    (htw : ∃ t ∈ projectTasksOf pid sprints tasks, hasPoints t = true) :
    (∀ (i : Nat) (p : BurndownDataPoint),
      (generateBurndownData pid sprints tasks today)[i]? = some p →
      p.ideal = round (max 0
        (((((projectTasksOf pid sprints tasks).filter hasPoints).map taskPts).sum : ℚ)
          - (i : ℚ) * (((((projectTasksOf pid sprints tasks).filter hasPoints).map
              taskPts).sum : ℚ) / ((max (le - es + 1) 7 : Int) : ℚ))))
      ∧ 0 ≤ p.ideal)
    ∧ (∀ (i j : Nat) (pi pj : BurndownDataPoint), i ≤ j →
        (generateBurndownData pid sprints tasks today)[i]? = some pi →
        (generateBurndownData pid sprints tasks today)[j]? = some pj →
        pj.ideal ≤ pi.ideal)
    ∧ (∀ (p0 : BurndownDataPoint),
        (generateBurndownData pid sprints tasks today)[0]? = some p0 →
        p0.ideal
          = ((((projectTasksOf pid sprints tasks).filter hasPoints).map taskPts).sum : Int))
    ∧ (∀ (p0 pl : BurndownDataPoint),
        (generateBurndownData pid sprints tasks today)[0]? = some p0 →
        (generateBurndownData pid sprints tasks today)[
          (generateBurndownData pid sprints tasks today).length - 1]? = some pl →
        pl.ideal ≤ p0.ideal) := by
  have hgen := generateBurndownData_eq pid sprints tasks today es le hsp hes hle htw
  have hq : (0 : ℚ) ≤ ((((projectTasksOf pid sprints tasks).filter hasPoints).map
      taskPts).sum : ℚ) / ((max (le - es + 1) 7 : Int) : ℚ) := by
    apply div_nonneg
    · exact Nat.cast_nonneg _
    · have h7 : (0 : Int) ≤ max (le - es + 1) 7 := le_trans (by norm_num) (le_max_right _ _)
      exact_mod_cast h7
  have hmono : ∀ i j : Nat, i ≤ j →
      (mkPoint es today
        ((((projectTasksOf pid sprints tasks).filter hasPoints).map taskPts).sum)
        (max (le - es + 1) 7)
        (completedTasksByDate ((projectTasksOf pid sprints tasks).filter hasPoints))
        j).ideal
      ≤ (mkPoint es today
        ((((projectTasksOf pid sprints tasks).filter hasPoints).map taskPts).sum)
        (max (le - es + 1) 7)
        (completedTasksByDate ((projectTasksOf pid sprints tasks).filter hasPoints))
        i).ideal := by
    intro i j hij
    simp only [mkPoint]
    apply roundRatMono
    apply max_le_max (le_refl 0)
    apply sub_le_sub_left
    apply mul_le_mul_of_nonneg_right _ hq
    exact_mod_cast hij
  refine ⟨?_, ?_, ?_, ?_⟩
  · intro i p hip
    rw [hgen] at hip
    obtain ⟨hlt, hp⟩ := getElem?_map_range hip
    subst hp
    exact ⟨rfl, roundRatNonneg (le_max_left 0 _)⟩
  · intro i j pi pj hij hi hj
    rw [hgen] at hi hj
    obtain ⟨hlti, hpi⟩ := getElem?_map_range hi
    obtain ⟨hltj, hpj⟩ := getElem?_map_range hj
    subst hpi
    subst hpj
    exact hmono i j hij
  · intro p0 h0
    rw [hgen] at h0
    obtain ⟨_, hp0⟩ := getElem?_map_range h0
    subst hp0
    simp only [mkPoint, Nat.cast_zero, zero_mul, sub_zero]
    rw [max_eq_right (Nat.cast_nonneg _), round_natCast]
  · intro p0 pl h0 hl
    rw [hgen] at h0 hl
    obtain ⟨_, hp0⟩ := getElem?_map_range h0
    obtain ⟨_, hpl⟩ := getElem?_map_range hl
    subst hp0
    subst hpl
    exact hmono 0 _ (Nat.zero_le _)

theorem burndown_ideal_line_properties_witness :
    (generateBurndownData "p1" [exSprintA] [exTaskDone, exTaskOpen] 4)[0]?
      = some ⟨0, 8, some 8⟩
    ∧ ((⟨0, 8, some 8⟩ : BurndownDataPoint).ideal
        = ((((projectTasksOf "p1" [exSprintA] [exTaskDone, exTaskOpen]).filter
            hasPoints).map taskPts).sum : Int)) := by
  have h := (burndown_ideal_line_properties "p1" [exSprintA] [exTaskDone, exTaskOpen]
    4 0 6 (by decide) (by decide) (by decide) (by decide)).2.2.1
    ⟨0, 8, some 8⟩ (by with_unfolding_all rfl)
  exact ⟨by with_unfolding_all rfl, h⟩

/-- C8: a nonempty generated burndown series has exactly
max(latestEnd − earliestStart + 1, 7) points, one per consecutive calendar
day starting at the earliest sprint start, with pairwise distinct dates. -/
theorem burndown_series_span_and_dates (pid : String) (sprints : List Sprint)
    (tasks : List Task) (today es le : Int)
    (hsp : getSprintsByProject pid sprints ≠ [])
    (hes : earliestStartDate (getSprintsByProject pid sprints) = some es)
    (hle : latestEndDate (getSprintsByProject pid sprints) = some le)
    (htw : ∃ t ∈ projectTasksOf pid sprints tasks, hasPoints t = true) :
    (((generateBurndownData pid sprints tasks today).length : Int) = max (le - es + 1) 7)
    ∧ (∀ (i : Nat) (p : BurndownDataPoint),
        (generateBurndownData pid sprints tasks today)[i]? = some p →
        p.date = es + (i : Int))
    ∧ ((generateBurndownData pid sprints tasks today).map (fun p => p.date)).Nodup := by
  have hgen := generateBurndownData_eq pid sprints tasks today es le hsp hes hle htw
  have h7 : (0 : Int) ≤ max (le - es + 1) 7 := le_trans (by norm_num) (le_max_right _ _)
  refine ⟨?_, ?_, ?_⟩
  · rw [hgen, List.length_map, List.length_range]
    exact Int.toNat_of_nonneg h7
  · intro i p hip
    rw [hgen] at hip
    obtain ⟨hlt, hp⟩ := getElem?_map_range hip
    subst hp
    rfl
  · rw [hgen, List.map_map]
    have hcomp : ((fun p => p.date) ∘ mkPoint es today
        ((((projectTasksOf pid sprints tasks).filter hasPoints).map taskPts).sum)
        (max (le - es + 1) 7)
        (completedTasksByDate ((projectTasksOf pid sprints tasks).filter hasPoints)))
        = fun (i : Nat) => es + (i : Int) := rfl
    rw [hcomp]
    apply List.Nodup.map
    · intro a b hab
      simpa using hab
    · exact List.nodup_range _

theorem burndown_series_span_and_dates_witness :
    ((generateBurndownData "p1" [exSprintA] [exTaskDone, exTaskOpen] 4).length : Int)
      = max ((6 : Int) - 0 + 1) 7 := by
  exact (burndown_series_span_and_dates "p1" [exSprintA] [exTaskDone, exTaskOpen]
    4 0 6 (by decide) (by decide) (by decide) (by decide)).1

/-- C10: the burndown generation gathers tasks only through the project's
sprints, so a backlog task — empty sprintId — contributes neither to the
total story points nor to the actual values: prepending any backlog task
to the cache leaves the generated series unchanged (no cached sprint
carries the empty id). -/
theorem burndown_ignores_backlog_tasks (pid : String) (sprints : List Sprint)
    (tasks : List Task) (today : Int) (t : Task)
    (ht : t.sprintId = "") (hids : ∀ sp ∈ sprints, sp.id ≠ "") :
    generateBurndownData pid sprints (t :: tasks) today
      = generateBurndownData pid sprints tasks today := by
  have hPT : projectTasksOf pid sprints (t :: tasks) = projectTasksOf pid sprints tasks := by
    unfold projectTasksOf
    apply List.flatMap_congr
    intro sp hsp2
    unfold getTasksBySprint
    have hspid : sp.id ≠ "" := by
      apply hids sp
      have h2 : sp ∈ sprints ∧ sp.projectId = pid := by
        simpa [getSprintsByProject] using hsp2
      exact h2.1
    rw [List.filter_cons]
    have hne : ¬ (t.sprintId = sp.id) := by
      rw [ht]
      exact fun h => hspid h.symm
    simp [hne]
  unfold generateBurndownData
  rw [hPT]

theorem burndown_ignores_backlog_tasks_witness :
    generateBurndownData "p1" [exSprintA] (exTaskBacklog :: [exTaskDone, exTaskOpen]) 4
      = generateBurndownData "p1" [exSprintA] [exTaskDone, exTaskOpen] 4 := by
  exact burndown_ignores_backlog_tasks "p1" [exSprintA] [exTaskDone, exTaskOpen] 4
    exTaskBacklog (by decide) (by decide)

/-- C2: the staleness check is true when no fetch timestamp exists for the
key (given a clock past the age threshold, as any epoch-millisecond clock
is), when more than maxAge milliseconds have elapsed since the recorded
fetch, or when the key is flagged as errored; in particular it is true
immediately after markFetchError regardless of how recently
updateFetchTime ran for the key. -/
theorem staleness_check_conditions (m : CacheMeta) (key : String) (maxAge now : Nat) :
    (m.lastFetchTime key = none → maxAge < now → isStale m key maxAge now = true)
    ∧ (∀ t, m.lastFetchTime key = some t → (maxAge : Int) < (now : Int) - (t : Int) →
        isStale m key maxAge now = true)
    ∧ (m.fetchErrors key = true → isStale m key maxAge now = true)
    ∧ (∀ tf, isStale (markFetchError (updateFetchTime m key tf) key) key maxAge now = true) := by
  refine ⟨fun h hlt => ?_, fun t h hlt => ?_, fun h => ?_, fun tf => ?_⟩
  · simp only [isStale, shouldRefetch, h, Option.getD_none, Bool.or_eq_true,
      decide_eq_true_eq]
    left
    omega
  · simp only [isStale, shouldRefetch, h, Option.getD_some, Bool.or_eq_true,
      decide_eq_true_eq]
    left
    omega
  · simp [isStale, h]
  · simp [isStale, markFetchError]

theorem staleness_check_conditions_witness :
    isStale emptyMeta "sprints-p1" 60000 100000 = true
    ∧ isStale (markFetchError (updateFetchTime emptyMeta "projects" 99999) "projects")
        "projects" 60000 100000 = true := by
  exact ⟨(staleness_check_conditions emptyMeta "sprints-p1" 60000 100000).1 rfl (by norm_num),
    (staleness_check_conditions (updateFetchTime emptyMeta "projects" 99999)
      "projects" 60000 100000).2.2.2 99999⟩

/-- C7: every fetch operation swallows a remote failure instead of raising:
the whole entity cache is returned unchanged, the error flag of the
operation's scope key is set through markFetchError, and the fetch
timestamps are untouched. -/
theorem fetch_failure_swallowed_and_flagged (st : Store) (m : CacheMeta) (now : Nat)
    (pid sid : String) :
    fetchProjectsStep st m now (.error ()) = (st, markFetchError m "projects")
    ∧ fetchSprintsStep st m pid now (.error ()) = (st, markFetchError m ("sprints-" ++ pid))
    ∧ fetchTasksBySprintStep st m sid now (.error ())
        = (st, markFetchError m ("tasks-sprint-" ++ sid))
    ∧ fetchBacklogTasksStep st m pid now (.error ())
        = (st, markFetchError m ("backlog-" ++ pid))
    ∧ fetchCollaborativeProjectsStep st m now (.error ())
        = (st, markFetchError m "collaborations")
    ∧ (∀ key, (markFetchError m key).lastFetchTime = m.lastFetchTime
        ∧ (markFetchError m key).fetchErrors key = true) := by
  exact ⟨rfl, rfl, rfl, rfl, rfl, fun key => ⟨rfl, by simp [markFetchError]⟩⟩

/-- C9: a successful collaborative-projects fetch that returns zero rows
leaves the cached project list entirely unchanged and records no fetch
time for the collaborations key, unlike the replace-by-scope updates of
the other fetch operations. -/
theorem fetchCollaborativeProjects_empty_rows_noop (st : Store) (m : CacheMeta)
    (now : Nat) :
    fetchCollaborativeProjectsStep st m now (.ok []) = (st, m) := rfl

/-- C4: a successful sprint refetch for a project replaces exactly that
project's slice of the sprint cache with the fetched rows and leaves every
sprint of any other project unchanged; with zero fetched rows the cache is
exactly the other projects' sprints. -/
theorem fetchSprints_replaces_project_scope (st : Store) (m : CacheMeta)
    (pid : String) (now : Nat) (rows : List Sprint)
    (hrows : ∀ s ∈ rows, s.projectId = pid) :
    ((fetchSprintsStep st m pid now (.ok rows)).1.sprints.filter
        (fun s => s.projectId = pid) = rows)
    ∧ ((fetchSprintsStep st m pid now (.ok rows)).1.sprints.filter
        (fun s => s.projectId ≠ pid) = st.sprints.filter (fun s => s.projectId ≠ pid))
    ∧ (rows = [] → (fetchSprintsStep st m pid now (.ok rows)).1.sprints
        = st.sprints.filter (fun s => s.projectId ≠ pid)) := by
  have hbase : (st.sprints.filter (fun s => s.projectId ≠ pid)).filter
      (fun s => s.projectId = pid) = [] := by
    refine List.filter_eq_nil_iff.mpr ?_
    intro s hs
    have := (List.mem_filter.mp hs).2
    simp only [ne_eq, decide_not, Bool.not_eq_eq_eq_not, Bool.not_true,
      decide_eq_false_iff_not] at this
    simp [this]
  refine ⟨?_, ?_, ?_⟩
  · simp only [fetchSprintsStep, List.filter_append, hbase, List.nil_append]
    refine List.filter_eq_self.mpr ?_
    intro s hs
    simp [hrows s hs]
  · simp only [fetchSprintsStep, List.filter_append]
    have h2 : rows.filter (fun s => s.projectId ≠ pid) = [] := by
      refine List.filter_eq_nil_iff.mpr ?_
      intro s hs
      simp [hrows s hs]
    rw [h2, List.append_nil]
    refine List.filter_eq_self.mpr ?_
    intro s hs
    exact (List.mem_filter.mp hs).2
  · intro h
    simp [fetchSprintsStep, h]

theorem fetchSprints_replaces_project_scope_witness :
    ((fetchSprintsStep ⟨[], [exSprintA, exSprintOther], [], fun _ => none⟩ emptyMeta
        "p1" 0 (.ok [exSprintB])).1.sprints.filter (fun s => s.projectId = "p1")
      = [exSprintB])
    ∧ ((fetchSprintsStep ⟨[], [exSprintA, exSprintOther], [], fun _ => none⟩ emptyMeta
        "p1" 0 (.ok [exSprintB])).1.sprints.filter (fun s => s.projectId ≠ "p1")
      = [exSprintOther]) := by
  have h := fetchSprints_replaces_project_scope
    ⟨[], [exSprintA, exSprintOther], [], fun _ => none⟩ emptyMeta "p1" 0 [exSprintB]
    (by intro s hs; simp at hs; simp [hs, exSprintB])
  refine ⟨h.1, ?_⟩
  have := h.2.1
  rw [this]
  decide

/-- C3: on a task cached without a completion date, an update whose status
transitions into done from a non-done status stamps the current day as the
completion date; an update that sets status done on an already-done task,
or on a task whose completion date is already set, leaves the completion
date unchanged (the update considered here does not itself carry a
completionDate field). -/
theorem updateTask_completion_write_once (tasks : List Task) (id : String)
    (u : TaskUpdate) (today : Int) (nowStr : String) (ex : Task)
    (hfind : tasks.find? (fun t => t.id = id) = some ex)
    (hnocd : u.completionDate = none) :
    updateTaskLocal tasks id u today nowStr
      = some (tasks.map (fun t => if t.id = id then applyTaskUpdate ex u today nowStr else t))
    ∧ (ex.completionDate = none → u.status = some "done" → ex.status ≠ "done" →
        (applyTaskUpdate ex u today nowStr).completionDate = some today)
    ∧ (ex.status = "done" →
        (applyTaskUpdate ex u today nowStr).completionDate = ex.completionDate)
    ∧ (∀ d, ex.completionDate = some d →
        (applyTaskUpdate ex u today nowStr).completionDate = some d) := by
  refine ⟨by simp [updateTaskLocal, hfind], fun hcd hst hne => ?_, fun hdone => ?_,
    fun d hcd => ?_⟩
  · simp [applyTaskUpdate, hnocd, hcd, hst, hne]
  · simp [applyTaskUpdate, hnocd, hdone]
  · simp [applyTaskUpdate, hnocd, hcd]

theorem updateTask_completion_write_once_witness :
    updateTaskLocal [exTaskOpen] "b" exUpdateDone 4 "now"
      = some [applyTaskUpdate exTaskOpen exUpdateDone 4 "now"]
    ∧ (applyTaskUpdate exTaskOpen exUpdateDone 4 "now").completionDate = some 4
    ∧ (applyTaskUpdate exTaskDone exUpdateDone 9 "now").completionDate = some 2 := by
  have h1 := updateTask_completion_write_once [exTaskOpen] "b" exUpdateDone 4 "now"
    exTaskOpen (by decide) rfl
  have h2 := updateTask_completion_write_once [exTaskDone] "a" exUpdateDone 9 "now"
    exTaskDone (by decide) rfl
  refine ⟨?_, h1.2.1 rfl rfl (by decide), h2.2.2.2 2 rfl⟩
  have := h1.1
  simpa using this

/-- The sprint-cascade loop never touches the project list or the burndown
store, as long as the interleaved refresh does not either. -/
theorem cascadeDeleteSprints_frame (ok : String → Bool) (refresh : Store → Store)
    (hrp : ∀ s, (refresh s).projects = s.projects)
    (hrb : ∀ s, (refresh s).burndownData = s.burndownData) :
    ∀ (l : List String) (st : Store),
      (cascadeDeleteSprints ok refresh l st).2.projects = st.projects
      ∧ (cascadeDeleteSprints ok refresh l st).2.burndownData = st.burndownData := by
  intro l
  induction l with
  | nil => intro st; exact ⟨rfl, rfl⟩
  | cons sid rest ih =>
    intro st
    by_cases h : ok sid
    · have hstep := ih (refresh (deleteSprintLocal st sid))
      simp only [cascadeDeleteSprints, h, if_true]
      refine ⟨?_, ?_⟩
      · rw [hstep.1, hrp, ]
        rfl
      · rw [hstep.2, hrb]
        rfl
    · simp [cascadeDeleteSprints, h]

/-- C6 (amended): a deleteProject run in which every cascade step succeeds
leaves no cached sprint of the project, no cached task referencing the
project, no cached project row, and no burndown series for it; a run in
which any step fails reports the failure and performs none of the
project-level removals — the project row and its burndown series are still
cached — although sprints whose own cascade deletion completed before the
failing step have already been removed from the cache, mirroring the
non-rolled-back remote deletions. -/
theorem deleteProject_cascade_effects (st : Store) (pid : String)
    (ok : String → Bool) (backlogOk projectOk : Bool) (refresh : Store → Store)
    (hrp : ∀ s, (refresh s).projects = s.projects)
    (hrb : ∀ s, (refresh s).burndownData = s.burndownData) :
    ((deleteProjectModel st pid ok backlogOk projectOk refresh).1 = true →
      (∀ s2 ∈ (deleteProjectModel st pid ok backlogOk projectOk refresh).2.sprints,
        s2.projectId ≠ pid)
      ∧ (∀ t ∈ (deleteProjectModel st pid ok backlogOk projectOk refresh).2.tasks,
          t.projectId ≠ pid)
      ∧ (∀ p ∈ (deleteProjectModel st pid ok backlogOk projectOk refresh).2.projects,
          p.id ≠ pid)
      ∧ (deleteProjectModel st pid ok backlogOk projectOk refresh).2.burndownData pid
          = none)
    ∧ ((deleteProjectModel st pid ok backlogOk projectOk refresh).1 = false →
      (deleteProjectModel st pid ok backlogOk projectOk refresh).2.projects = st.projects
      ∧ (deleteProjectModel st pid ok backlogOk projectOk refresh).2.burndownData
          = st.burndownData) := by
  have hframe := cascadeDeleteSprints_frame ok refresh hrp hrb
    ((st.sprints.filter (fun s => s.projectId = pid)).map (fun s => s.id)) st
  rcases hc : cascadeDeleteSprints ok refresh
      ((st.sprints.filter (fun s => s.projectId = pid)).map (fun s => s.id)) st with ⟨b, st2⟩
  rw [hc] at hframe
  simp only [deleteProjectModel, hc]
  cases b
  · exact ⟨fun h => by simp at h, fun _ => hframe⟩
  · cases backlogOk
    · exact ⟨fun h => by simp at h, fun _ => hframe⟩
    · cases projectOk
      · exact ⟨fun h => by simp at h, fun _ => hframe⟩
      · refine ⟨fun _ => ?_, fun h => by simp at h⟩
        refine ⟨?_, ?_, ?_, ?_⟩
        · intro s2 hs2
          have := (List.mem_filter.mp hs2).2
          simpa using this
        · intro t ht
          have h2 := (List.mem_filter.mp ht).2
          simp only [decide_eq_true_eq] at h2
          exact h2.2
        · intro p hp2
          have := (List.mem_filter.mp hp2).2
          simpa using this
        · simp [deleteProjectFinalize]

theorem deleteProject_cascade_effects_witness :
    (∀ s2 ∈ (deleteProjectModel exStore "p1" (fun _ => true) true true id).2.sprints,
      s2.projectId ≠ "p1")
    ∧ (deleteProjectModel exStore "p1" (fun _ => true) true true id).2.burndownData "p1"
        = none := by
  have h := (deleteProject_cascade_effects exStore "p1" (fun _ => true) true true id
    (fun _ => rfl) (fun _ => rfl)).1 (by decide)
  exact ⟨h.1, h.2.2.2⟩

/-- C6 counterexample: with two cached sprints of the project and a remote
failure on the second sprint's deletion, deleteProject raises, yet the
first sprint has already been removed from the cache — so a failing
cascade does not leave all the local removals unperformed, contradicting
the claim that none of them happen. -/
theorem deleteProject_failure_partial_removal :
    (deleteProjectModel exStore "p1" (fun s => decide (s = "s1")) true true id).1 = false
    ∧ (deleteProjectModel exStore "p1" (fun s => decide (s = "s1")) true true id).2.sprints
        = [exSprintB]
    ∧ exStore.sprints = [exSprintA, exSprintB] := by
  refine ⟨by decide, by decide, by decide⟩

end Scrum
